import Mathlib

/-!
Shallow embedding of the vechonk buffer manager (src/src/raw.rs, src/src/lib.rs,
src/src/iter.rs) and proofs about the claims of its specification.

The container stores variable-size payloads in one allocation: payload bytes grow
from the front, fixed-size index records (offset + metadata) grow from the back.
We model the instantiation used throughout the crate's own tests
(for example Vechonk of str or of dyn Any on a 64-bit target), where one index
record `PtrData` occupies 16 bytes (`dataSize`) and the allocation is aligned to
8 bytes (`dataAlign`).

Memory is modelled byte-exactly: the payload region is a function from
buffer-relative offsets to byte values, and the index region is a slot-indexed
map of records (the source addresses record slot i at byte offset
`cap - 16*(i+1)`; `regrow` copies the record block so that slot numbering is
preserved, which is what the slot-indexed map captures).  The base address of
the allocation is kept in the state because the source aligns payloads against
the absolute pointer (`ptr.add(offset).align_offset(align)`); allocations of the
buffer are 8-byte aligned, and a zero-capacity container uses the dangling
pointer with address 1 (`NonNull::<u8>::dangling()`).
-/

namespace Vechonk

/-- Size in bytes of one index record, `size_of::<PtrData<T>>()` for a
fat-pointee `T` (offset `usize` plus one-word metadata) on a 64-bit target. -/
def dataSize : Nat := 16

/-- Alignment of one index record, `align_of::<PtrData<T>>()` on a 64-bit
target; `RawVechonk::data_align` in raw.rs. -/
def dataAlign : Nat := 8

/-- Pointer metadata of one stored element: its byte size and its alignment
requirement (a slice length or vtable determines both). -/
structure Meta where
  size : Nat
  align : Nat
deriving DecidableEq

/-- Embeds `PtrData<T>` (raw.rs lines 10-13): the byte offset of the payload
within the buffer plus the pointer metadata. -/
structure PtrData where
  offset : Nat
  meta : Meta
deriving DecidableEq

/-- One payload value: its bytes and its alignment requirement.  This is the
observable content of a `Box<T>` handed to or returned by the container. -/
structure Elem where
  bytes : List Nat
  align : Nat
deriving DecidableEq

/-- Byte size of a payload, `mem::size_of_val`. -/
def Elem.size (v : Elem) : Nat := v.bytes.length

/-- The pointer metadata recorded for a payload. -/
def Elem.metaOf (v : Elem) : Meta := ⟨v.bytes.length, v.align⟩

/-- Embeds `RawVechonk<T>` (raw.rs lines 25-35).  `base` is the address of the
allocation (`ptr`), `mem` the payload-region bytes addressed relative to
`base`, and `recs` the index records by logical slot. -/
structure Chonk where
  base : Nat
  cap : Nat
  len : Nat
  elem_size : Nat
  mem : Nat → Nat
  recs : Nat → PtrData

/-- Embeds `force_align` (lib.rs line 466): round `size` down to a multiple of
`align`. -/
def forceAlign (size align : Nat) : Nat := size - size % align

/-- Embeds `<*const u8>::align_offset`: how many bytes must be added to address
`p` so that it becomes a multiple of `a`. -/
def alignOffset (p a : Nat) : Nat := (a - p % a) % a

/-- Reads `n` bytes starting at offset `off`. -/
def readBytes (mem : Nat → Nat) (off n : Nat) : List Nat :=
  (List.range n).map fun k => mem (off + k)

/-- Writes the bytes `bs` starting at offset `off`, one byte at a time, as
`ptr::copy_nonoverlapping` does. -/
def writeBytes (mem : Nat → Nat) (off : Nat) : List Nat → (Nat → Nat)
  | [] => mem
  | b :: bs => writeBytes (fun i => if i = off then b else mem i) (off + 1) bs

/-- Embeds `RawVechonk::new` (raw.rs lines 49-57): no allocation, dangling
pointer (address 1 for a byte pointer). -/
def Chonk.newChonk : Chonk :=
  { base := 1, cap := 0, len := 0, elem_size := 0,
    mem := fun _ => 0, recs := fun _ => ⟨0, 0, 0⟩ }

/-- Embeds `RawVechonk::with_capacity` (raw.rs lines 59-73): the capacity is
rounded down to a multiple of `dataAlign`; a zero rounded capacity keeps the
dangling state, otherwise a fresh zeroed allocation at `newBase` is used. -/
def Chonk.withCapacity (capacity newBase : Nat) : Chonk :=
  let cap := forceAlign capacity dataAlign
  if cap = 0 then Chonk.newChonk
  else { base := newBase, cap := cap, len := 0, elem_size := 0,
         mem := fun _ => 0, recs := fun _ => ⟨0, 0, 0⟩ }

/-- Embeds `RawVechonk::data_section_size` (raw.rs lines 432-434). -/
def Chonk.dataSectionSize (s : Chonk) : Nat := s.len * dataSize

/-- Embeds `RawVechonk::offset_for_data` (raw.rs lines 423-426); the
subtraction saturates exactly as `usize::saturating_sub` does. -/
def Chonk.offsetForData (s : Chonk) (index : Nat) : Nat :=
  s.cap - dataSize * (index + 1)

/-- Embeds `RawVechonk::needs_grow` (raw.rs lines 428-430). -/
def Chonk.needsGrow (s : Chonk) (additionalSize : Nat) : Prop :=
  additionalSize > s.cap - (s.elem_size + s.dataSectionSize)

instance (s : Chonk) (n : Nat) : Decidable (s.needsGrow n) := by
  unfold Chonk.needsGrow; infer_instance

/-- Embeds `RawVechonk::regrow` (raw.rs lines 281-320): allocate
`forceAlign (minSize * 2) dataAlign` bytes at `newBase`, copy the live payload
prefix `[0, elem_size)` verbatim, copy the `len` record slots, free the old
buffer.  Bytes beyond the copied prefix are fresh (zeroed, as in the
`alloc_zeroed` debug path); record slots beyond `len` are reset likewise. -/
def Chonk.regrow (s : Chonk) (minSize newBase : Nat) : Chonk :=
  let newCap := forceAlign (minSize * 2) dataAlign
  { base := newBase, cap := newCap, len := s.len, elem_size := s.elem_size,
    mem := fun i => if i < s.elem_size then s.mem i else 0,
    recs := fun i => if i < s.len then s.recs i else ⟨0, 0, 0⟩ }

/-- Embeds `RawVechonk::push` (raw.rs lines 75-125).  `newBase` is the address
the allocator returns if the push has to regrow.  The alignment offset is first
computed against the current pointer to decide growth, and recomputed against
the (possibly new) pointer before the copy, exactly as in the source.  The
source then records `elem_offset + dest_align_offset` in the new `PtrData` at
slot `len`, but advances `elem_size` by the payload size only. -/
def Chonk.push (s : Chonk) (element : Elem) (newBase : Nat) : Chonk :=
  let elemSize := element.size
  let elemAlign := element.align
  let elemOffset := s.elem_size
  let requiredAlignOffset := alignOffset (s.base + elemOffset) elemAlign
  let s1 := if s.needsGrow (elemSize + dataSize + requiredAlignOffset)
            then s.regrow (s.cap + elemSize + dataSize) newBase
            else s
  let destAlignOffset := alignOffset (s1.base + elemOffset) elemAlign
  let destOff := elemOffset + destAlignOffset
  { s1 with
    mem := writeBytes s1.mem destOff element.bytes,
    recs := fun i => if i = s1.len then ⟨destOff, element.metaOf⟩ else s1.recs i,
    elem_size := s1.elem_size + elemSize,
    len := s1.len + 1 }

/-- Embeds `RawVechonk::box_elem_unchecked` (raw.rs lines 230-267): read the
record at `index`, reconstruct the payload from the recorded offset and
metadata by copying its bytes out. -/
def Chonk.boxElemUnchecked (s : Chonk) (index : Nat) : Elem :=
  let data := s.recs index
  ⟨readBytes s.mem data.offset data.meta.size, data.meta.align⟩

/-- The size of the fresh allocation that `box_elem_unchecked` requests for the
returned box (`Layout::for_value` of the reconstructed reference, raw.rs lines
243-246). -/
def Chonk.boxAllocSize (s : Chonk) (index : Nat) : Nat :=
  (s.recs index).meta.size

/-- Embeds `RawVechonk::pop` (raw.rs lines 211-224). -/
def Chonk.pop (s : Chonk) : Option (Elem × Chonk) :=
  if s.len = 0 then none
  else some (s.boxElemUnchecked (s.len - 1), { s with len := s.len - 1 })

/-- Embeds the free-window start of `try_replace_elem` (raw.rs lines 148-156):
0 for index 0, otherwise the end (offset plus size) of the payload before. -/
def Chonk.freeSpaceStart (s : Chonk) (index : Nat) : Nat :=
  if index = 0 then 0
  else (s.recs (index - 1)).offset + (s.recs (index - 1)).meta.size

/-- Embeds the free-window end of `try_replace_elem` (raw.rs lines 158-163):
the start of the index region `cap - data_section_size` when `index` is the
last element, otherwise the recorded offset of payload `index + 1`. -/
def Chonk.nextElementStart (s : Chonk) (index : Nat) : Nat :=
  if index = s.len - 1 then s.cap - s.dataSectionSize
  else (s.recs (index + 1)).offset

/-- Embeds `RawVechonk::try_replace_elem` (raw.rs lines 130-209).  Returns
`Sum.inl old` together with the new state on success, or `Sum.inr element`
with the untouched state when the index is out of bounds or the element does
not fit the free window (`saturating_sub` is the truncated Nat subtraction). -/
def Chonk.tryReplace (s : Chonk) (element : Elem) (index : Nat) :
    (Elem ⊕ Elem) × Chonk :=
  if index ≥ s.len then (Sum.inr element, s)
  else
    let freeStart := s.freeSpaceStart index
    let nextStart := s.nextElementStart index
    let elemSize := element.size
    let requiredAlignOffset := alignOffset (s.base + freeStart) element.align
    let newElemStartingOffset := freeStart + requiredAlignOffset
    let actualFreeSpace := nextStart - newElemStartingOffset
    if actualFreeSpace < elemSize then (Sum.inr element, s)
    else
      let oldElem := s.boxElemUnchecked index
      (Sum.inl oldElem,
       { s with
         mem := writeBytes s.mem newElemStartingOffset element.bytes,
         recs := fun i => if i = index then ⟨newElemStartingOffset, element.metaOf⟩
                 else s.recs i })

/-- Embeds `Vechonk::get` (lib.rs lines 247-254): bounds-checked element
reconstruction. -/
def Chonk.get (s : Chonk) (index : Nat) : Option Elem :=
  if index < s.len then some (s.boxElemUnchecked index) else none

/-- Pushes a list of payloads in order; each entry carries the base address the
allocator would hand out should that push regrow. -/
def Chonk.pushAll (s : Chonk) : List (Elem × Nat) → Chonk
  | [] => s
  | (v, b) :: rest => (s.push v b).pushAll rest

/-- Whether the push of `element` onto `s` takes the regrow branch. -/
def Chonk.pushGrows (s : Chonk) (element : Elem) : Prop :=
  s.needsGrow (element.size + dataSize +
    alignOffset (s.base + s.elem_size) element.align)

instance (s : Chonk) (v : Elem) : Decidable (s.pushGrows v) := by
  unfold Chonk.pushGrows; infer_instance

/-- Whether at least one push of the sequence takes the regrow branch. -/
def Chonk.pushAllGrows (s : Chonk) : List (Elem × Nat) → Prop
  | [] => False
  | (v, b) :: rest => s.pushGrows v ∨ (s.push v b).pushAllGrows rest

def decPushAllGrows : (ps : List (Elem × Nat)) → (s : Chonk) →
    Decidable (s.pushAllGrows ps)
  | [], _ => by unfold Chonk.pushAllGrows; infer_instance
  | (v, b) :: rest, s =>
    have : Decidable ((s.push v b).pushAllGrows rest) := decPushAllGrows rest _
    by unfold Chonk.pushAllGrows; infer_instance

instance (s : Chonk) (ps : List (Elem × Nat)) : Decidable (s.pushAllGrows ps) :=
  decPushAllGrows ps s

/-- The bounds check that `push` relies on but never re-establishes after
`regrow` (raw.rs lines 96-116): with the destination alignment offset
recomputed against the possibly reallocated buffer, the payload bytes and the
record at slot `len` must fit below the index region of the resulting
capacity. -/
def Chonk.pushFits (s : Chonk) (element : Elem) (newBase : Nat) : Prop :=
  let elemOffset := s.elem_size
  let requiredAlignOffset := alignOffset (s.base + elemOffset) element.align
  let s1 := if s.needsGrow (element.size + dataSize + requiredAlignOffset)
            then s.regrow (s.cap + element.size + dataSize) newBase
            else s
  let destAlignOffset := alignOffset (s1.base + elemOffset) element.align
  elemOffset + destAlignOffset + element.size ≤ s1.cap - dataSize * (s1.len + 1)

instance (s : Chonk) (v : Elem) (b : Nat) : Decidable (s.pushFits v b) := by
  unfold Chonk.pushFits; infer_instance

/-! Basic facts about alignment and byte-level reads and writes. -/

/-- Aligning to 1 never needs padding. -/
theorem alignOffset_one (p : Nat) : alignOffset p 1 = 0 := by
  simp [alignOffset, Nat.mod_one]

/-- Rounding down to a multiple of 8 loses at most 7. -/
theorem forceAlign_eight_ge (x : Nat) : x - 7 ≤ forceAlign x 8 := by
  unfold forceAlign
  have := Nat.mod_lt x (show 0 < 8 by norm_num)
  omega

/-- A byte outside the written interval is unchanged. -/
theorem writeBytes_outside : ∀ (bs : List Nat) (mem : Nat → Nat) (off i : Nat),
    i < off ∨ off + bs.length ≤ i → writeBytes mem off bs i = mem i
  | [], _, _, _, _ => rfl
  | b :: bs, mem, off, i, h => by
    have hlen : (b :: bs).length = bs.length + 1 := rfl
    have h1 : i < off + 1 ∨ (off + 1) + bs.length ≤ i := by
      rcases h with h | h
      · exact Or.inl (Nat.lt_succ_of_lt h)
      · right; rw [hlen] at h; omega
    have hne : i ≠ off := by
      rcases h with h | h
      · omega
      · rw [hlen] at h; omega
    rw [writeBytes, writeBytes_outside bs _ (off + 1) i h1]
    simp [hne]

/-- Reading back the k-th written byte. -/
theorem writeBytes_get : ∀ (bs : List Nat) (mem : Nat → Nat) (off k : Nat)
    (h : k < bs.length), writeBytes mem off bs (off + k) = bs.get ⟨k, h⟩
  | b :: bs, mem, off, 0, _ => by
    rw [writeBytes, writeBytes_outside bs _ (off + 1) (off + 0) (Or.inl (by omega))]
    simp
  | b :: bs, mem, off, k + 1, h => by
    rw [writeBytes, show off + (k + 1) = (off + 1) + k by omega,
      writeBytes_get bs _ (off + 1) k (Nat.lt_of_succ_lt_succ h)]
    rfl

/-- Two memories agreeing on an interval read the same bytes there. -/
theorem readBytes_congr (m1 m2 : Nat → Nat) (off n : Nat)
    (h : ∀ k, k < n → m1 (off + k) = m2 (off + k)) :
    readBytes m1 off n = readBytes m2 off n := by
  apply List.ext_getElem
  · simp [readBytes]
  · intro i h1 h2
    simp only [readBytes, List.getElem_map, List.getElem_range]
    exact h i (by simpa [readBytes] using h1)

/-- Reading back exactly the written bytes recovers them. -/
theorem readBytes_writeBytes (mem : Nat → Nat) (off : Nat) (bs : List Nat) :
    readBytes (writeBytes mem off bs) off bs.length = bs := by
  apply List.ext_getElem
  · simp [readBytes]
  · intro i h1 h2
    simp only [readBytes, List.getElem_map, List.getElem_range]
    rw [writeBytes_get bs mem off i h2]
    exact List.get_eq_getElem bs ⟨i, h2⟩

/-! The packed-layout invariant: the layout that results from appending
payloads that never need alignment padding, where payload i occupies exactly
the bytes between the end of payload i-1 and the start of payload i+1. -/

/-- Total byte size of a list of payloads. -/
def sizeSum : List Elem → Nat
  | [] => 0
  | v :: vs => v.size + sizeSum vs

theorem sizeSum_append (xs ys : List Elem) :
    sizeSum (xs ++ ys) = sizeSum xs + sizeSum ys := by
  induction xs with
  | nil => simp [sizeSum]
  | cons x xs ih => simp [sizeSum, ih]; omega

theorem sizeSum_take_succ (vs : List Elem) (i : Nat) (h : i < vs.length) :
    sizeSum (vs.take (i + 1)) = sizeSum (vs.take i) + vs[i].size := by
  rw [List.take_succ, List.getElem?_eq_getElem h]
  simp only [Option.toList_some, sizeSum_append, sizeSum]
  omega

theorem sizeSum_take_le (vs : List Elem) (i : Nat) :
    sizeSum (vs.take i) ≤ sizeSum vs := by
  conv_rhs => rw [← List.take_append_drop i vs]
  rw [sizeSum_append]
  omega

theorem sizeSum_take_mono (vs : List Elem) (a b : Nat) (h : a ≤ b) :
    sizeSum (vs.take a) ≤ sizeSum (vs.take b) := by
  have : vs.take a = (vs.take b).take a := by
    rw [List.take_take, Nat.min_eq_left h]
  rw [this]
  exact sizeSum_take_le (vs.take b) a

/-- The packed-layout invariant: `s` holds exactly the payloads `vs`, laid out
with no alignment padding, so that payload i starts at the total size of its
predecessors, its record and bytes match, and the payload prefix and the index
region fit the capacity without overlapping. -/
def Packed (s : Chonk) (vs : List Elem) : Prop :=
  s.len = vs.length ∧
  s.elem_size = sizeSum vs ∧
  s.elem_size + dataSize * s.len ≤ s.cap ∧
  ∀ i, (h : i < vs.length) →
    s.recs i = ⟨sizeSum (vs.take i), vs[i].metaOf⟩ ∧
    readBytes s.mem (sizeSum (vs.take i)) vs[i].bytes.length = vs[i].bytes

instance (s : Chonk) (vs : List Elem) : Decidable (Packed s vs) := by
  unfold Packed; infer_instance

/-- A freshly constructed container is packed and empty. -/
theorem packed_newChonk : Packed Chonk.newChonk [] := by
  refine ⟨rfl, rfl, by norm_num [Chonk.newChonk, dataSize], ?_⟩
  intro i h
  simp at h

/-- A container built by `with_capacity` is packed and empty. -/
theorem packed_withCapacity (c b : Nat) : Packed (Chonk.withCapacity c b) [] := by
  have he : Chonk.withCapacity c b = if forceAlign c dataAlign = 0 then Chonk.newChonk
      else { base := b, cap := forceAlign c dataAlign, len := 0, elem_size := 0,
             mem := fun _ => 0, recs := fun _ => ⟨0, 0, 0⟩ } := rfl
  rw [he]
  split
  · exact packed_newChonk
  · exact ⟨rfl, rfl, by simp [sizeSum, dataSize], fun i h => by simp at h⟩

/-- Regrowing preserves the packed layout as long as the capacity does not
shrink: the live prefix copy preserves every payload and the record copy
preserves every slot. -/
theorem packed_regrow (s : Chonk) (vs : List Elem) (m b : Nat) (hp : Packed s vs)
    (hcap : s.cap ≤ forceAlign (m * 2) dataAlign) :
    Packed (s.regrow m b) vs := by
  obtain ⟨hlen, hsize, hfit, hrec⟩ := hp
  refine ⟨hlen, hsize, ?_, ?_⟩
  · show s.elem_size + dataSize * s.len ≤ forceAlign (m * 2) dataAlign
    omega
  · intro i h
    obtain ⟨hr, hc⟩ := hrec i h
    have hin : i < s.len := by omega
    constructor
    · show (if i < s.len then s.recs i else ⟨0, 0, 0⟩) = _
      rw [if_pos hin]
      exact hr
    · show readBytes (fun j => if j < s.elem_size then s.mem j else 0)
        (sizeSum (vs.take i)) vs[i].bytes.length = vs[i].bytes
      have hend : sizeSum (vs.take i) + vs[i].bytes.length ≤ s.elem_size := by
        have h1 := sizeSum_take_succ vs i h
        have h2 := sizeSum_take_le vs (i + 1)
        have h3 : vs[i].size = vs[i].bytes.length := rfl
        omega
      rw [readBytes_congr (fun j => if j < s.elem_size then s.mem j else 0) s.mem _ _
        (fun k hk => by
          show (if sizeSum (vs.take i) + k < s.elem_size
              then s.mem (sizeSum (vs.take i) + k) else 0)
            = s.mem (sizeSum (vs.take i) + k)
          rw [if_pos (by omega)])]
      exact hc

/-- Appending one padding-free payload to a packed container with enough
room keeps it packed. -/
theorem packed_push_aux (s1 : Chonk) (vs : List Elem) (v : Elem)
    (hp : Packed s1 vs)
    (hfit : s1.elem_size + v.size + dataSize * (s1.len + 1) ≤ s1.cap) :
    Packed
      { s1 with
        mem := writeBytes s1.mem s1.elem_size v.bytes,
        recs := fun i => if i = s1.len then ⟨s1.elem_size, v.metaOf⟩ else s1.recs i,
        elem_size := s1.elem_size + v.size,
        len := s1.len + 1 } (vs ++ [v]) := by
  obtain ⟨hlen, hsize, hfit0, hrec⟩ := hp
  refine ⟨by simp [hlen], ?_, ?_, ?_⟩
  · show s1.elem_size + v.size = sizeSum (vs ++ [v])
    rw [sizeSum_append, hsize]
    simp [sizeSum]
  · show s1.elem_size + v.size + dataSize * (s1.len + 1) ≤ s1.cap
    exact hfit
  · intro i h
    have hl : (vs ++ [v]).length = vs.length + 1 := by simp
    by_cases hi : i < vs.length
    · have hne : i ≠ s1.len := by omega
      have htake : (vs ++ [v]).take i = vs.take i :=
        List.take_append_of_le_length (Nat.le_of_lt hi)
      have hget : (vs ++ [v])[i] = vs[i] := List.getElem_append_left hi
      obtain ⟨hr, hc⟩ := hrec i hi
      constructor
      · show (if i = s1.len then _ else s1.recs i) = _
        rw [if_neg hne, htake, hget]
        exact hr
      · show readBytes (writeBytes s1.mem s1.elem_size v.bytes)
          (sizeSum ((vs ++ [v]).take i)) ((vs ++ [v])[i]).bytes.length
          = ((vs ++ [v])[i]).bytes
        rw [htake, hget]
        have hend : sizeSum (vs.take i) + vs[i].bytes.length ≤ s1.elem_size := by
          have h1 := sizeSum_take_succ vs i hi
          have h2 := sizeSum_take_le vs (i + 1)
          have h3 : vs[i].size = vs[i].bytes.length := rfl
          omega
        rw [readBytes_congr (writeBytes s1.mem s1.elem_size v.bytes) s1.mem _ _
          (fun k hk => writeBytes_outside v.bytes s1.mem s1.elem_size _
            (Or.inl (by omega)))]
        exact hc
    · have hieq : i = vs.length := by omega
      subst hieq
      have htake : (vs ++ [v]).take vs.length = vs := List.take_left vs [v]
      have hget : (vs ++ [v])[vs.length] = v := by
        rw [List.getElem_append_right (Nat.le_refl vs.length)]
        simp
      constructor
      · show (if vs.length = s1.len then (⟨s1.elem_size, v.metaOf⟩ : PtrData)
            else s1.recs vs.length) = _
        rw [if_pos (by omega), htake, hget, hsize]
      · show readBytes (writeBytes s1.mem s1.elem_size v.bytes)
          (sizeSum ((vs ++ [v]).take vs.length))
          ((vs ++ [v])[vs.length]).bytes.length = ((vs ++ [v])[vs.length]).bytes
        rw [htake, hget, ← hsize]
        exact readBytes_writeBytes s1.mem s1.elem_size v.bytes

/-- A push of a padding-free (alignment-1) payload keeps the container packed
with the payload appended, whether or not the push regrows. -/
theorem packed_push (s : Chonk) (vs : List Elem) (v : Elem) (b : Nat)
    (hp : Packed s vs) (ha : v.align = 1) : Packed (s.push v b) (vs ++ [v]) := by
  unfold Chonk.push
  simp only [ha, alignOffset_one, Nat.add_zero]
  split
  · next hg =>
    refine packed_push_aux _ vs v ?_ ?_
    · refine packed_regrow s vs _ b hp ?_
      have h1 := forceAlign_eight_ge ((s.cap + v.size + dataSize) * 2)
      show s.cap ≤ forceAlign ((s.cap + v.size + dataSize) * 2) dataAlign
      unfold dataAlign dataSize at *
      omega
    · obtain ⟨hlen, hsize, hfit0, _⟩ := hp
      have h1 := forceAlign_eight_ge ((s.cap + v.size + dataSize) * 2)
      show s.elem_size + v.size + dataSize * (s.len + 1)
        ≤ forceAlign ((s.cap + v.size + dataSize) * 2) dataAlign
      unfold dataAlign dataSize at *
      omega
  · next hg =>
    refine packed_push_aux s vs v hp ?_
    unfold Chonk.needsGrow Chonk.dataSectionSize at hg
    push_neg at hg
    obtain ⟨hlen, hsize, hfit0, _⟩ := hp
    unfold dataSize at *
    omega

/-- Pushing a whole sequence of padding-free payloads keeps the container
packed with the sequence appended. -/
theorem packed_pushAll : ∀ (ps : List (Elem × Nat)) (s : Chonk) (vs : List Elem),
    Packed s vs → (∀ p ∈ ps, (Prod.fst p).align = 1) →
    Packed (s.pushAll ps) (vs ++ ps.map Prod.fst)
  | [], s, vs, hp, _ => by simpa [Chonk.pushAll] using hp
  | (v, b) :: rest, s, vs, hp, ha => by
    have h1 : Packed (s.push v b) (vs ++ [v]) :=
      packed_push s vs v b hp (ha (v, b) (by simp))
    have h2 := packed_pushAll rest (s.push v b) (vs ++ [v]) h1
      (fun p hm => ha p (by simp [hm]))
    simpa [Chonk.pushAll, List.append_assoc] using h2

/-- A packed container reads back exactly its payload list. -/
theorem packed_get (s : Chonk) (vs : List Elem) (hp : Packed s vs)
    (i : Nat) (h : i < vs.length) : s.get i = some vs[i] := by
  obtain ⟨hlen, _, _, hrec⟩ := hp
  obtain ⟨hr, hc⟩ := hrec i h
  unfold Chonk.get
  rw [if_pos (show i < s.len by omega)]
  unfold Chonk.boxElemUnchecked
  rw [hr]
  simp only [Elem.metaOf]
  rw [hc]

/-! Characterizations of `push` and `try_replace_elem` used by the claim
theorems: the intermediate state after the conditional regrow, the destination
offset recomputed against it, and the branch structure of the replace. -/

/-- The state `push` works on after its conditional regrow (raw.rs line 96). -/
def pushS1 (s : Chonk) (v : Elem) (b : Nat) : Chonk :=
  if s.needsGrow (v.size + dataSize + alignOffset (s.base + s.elem_size) v.align)
  then s.regrow (s.cap + v.size + dataSize) b else s

/-- The destination offset of the pushed payload: the old watermark plus the
alignment offset recomputed against the possibly reallocated buffer
(raw.rs lines 103-105). -/
def pushDestOff (s : Chonk) (v : Elem) (b : Nat) : Nat :=
  s.elem_size + alignOffset ((pushS1 s v b).base + s.elem_size) v.align

theorem push_eq (s : Chonk) (v : Elem) (b : Nat) :
    s.push v b =
      { pushS1 s v b with
        mem := writeBytes (pushS1 s v b).mem (pushDestOff s v b) v.bytes,
        recs := fun i => if i = (pushS1 s v b).len then ⟨pushDestOff s v b, v.metaOf⟩
          else (pushS1 s v b).recs i,
        elem_size := (pushS1 s v b).elem_size + v.size,
        len := (pushS1 s v b).len + 1 } := rfl

theorem pushS1_len (s : Chonk) (v : Elem) (b : Nat) : (pushS1 s v b).len = s.len := by
  unfold pushS1; split <;> rfl

theorem pushS1_elem_size (s : Chonk) (v : Elem) (b : Nat) :
    (pushS1 s v b).elem_size = s.elem_size := by
  unfold pushS1; split <;> rfl

theorem push_len (s : Chonk) (v : Elem) (b : Nat) : (s.push v b).len = s.len + 1 := by
  rw [push_eq]
  show (pushS1 s v b).len + 1 = s.len + 1
  rw [pushS1_len]

/-- The element just pushed reads back unchanged from the last slot. -/
theorem push_boxElem_last (s : Chonk) (v : Elem) (b : Nat) :
    (s.push v b).boxElemUnchecked s.len = v := by
  rw [push_eq]
  unfold Chonk.boxElemUnchecked
  show (let data := if s.len = (pushS1 s v b).len then
          (⟨pushDestOff s v b, v.metaOf⟩ : PtrData)
        else (pushS1 s v b).recs s.len;
    (⟨readBytes (writeBytes (pushS1 s v b).mem (pushDestOff s v b) v.bytes)
      data.offset data.meta.size, data.meta.align⟩ : Elem)) = v
  rw [if_pos (pushS1_len s v b).symm]
  show (⟨readBytes (writeBytes (pushS1 s v b).mem (pushDestOff s v b) v.bytes)
    (pushDestOff s v b) v.bytes.length, v.align⟩ : Elem) = v
  rw [readBytes_writeBytes]

/-- Popping right after a push takes the just-written record and decrements
the length back. -/
theorem push_pop_eq (s : Chonk) (v : Elem) (b : Nat) :
    (s.push v b).pop = some ((s.push v b).boxElemUnchecked s.len,
      { s.push v b with len := s.len }) := by
  unfold Chonk.pop
  rw [push_len, if_neg (Nat.succ_ne_zero s.len)]
  simp only [Nat.add_sub_cancel]

/-- A push of a padding-free payload onto a packed container leaves the
reads of all previously stored elements unchanged. -/
theorem push_get_below (s : Chonk) (vs : List Elem) (v : Elem) (b : Nat)
    (hp : Packed s vs) (ha : v.align = 1) (i : Nat) (h : i < s.len) :
    (s.push v b).get i = s.get i := by
  have hlen : s.len = vs.length := hp.1
  have h2 : i < vs.length := by omega
  have h3 : i < (vs ++ [v]).length := by simp; omega
  rw [packed_get _ _ (packed_push s vs v b hp ha) i h3,
    packed_get s vs hp i h2, List.getElem_append_left h2]

/-- Branch normal form of `try_replace_elem`. -/
theorem tryReplace_eq (s : Chonk) (v : Elem) (index : Nat) :
    s.tryReplace v index =
      if index ≥ s.len then (Sum.inr v, s)
      else if s.nextElementStart index -
          (s.freeSpaceStart index + alignOffset (s.base + s.freeSpaceStart index) v.align)
          < v.size then (Sum.inr v, s)
      else (Sum.inl (s.boxElemUnchecked index),
        { s with
          mem := writeBytes s.mem
            (s.freeSpaceStart index + alignOffset (s.base + s.freeSpaceStart index) v.align)
            v.bytes,
          recs := fun i => if i = index
            then ⟨s.freeSpaceStart index +
                    alignOffset (s.base + s.freeSpaceStart index) v.align,
                  v.metaOf⟩
            else s.recs i }) := rfl

/-- In a packed container the free-window start of a valid index is the end of
the packed prefix before it. -/
theorem packed_freeSpaceStart (s : Chonk) (vs : List Elem) (hp : Packed s vs)
    (index : Nat) (h : index < vs.length) :
    s.freeSpaceStart index = sizeSum (vs.take index) := by
  unfold Chonk.freeSpaceStart
  by_cases h0 : index = 0
  · subst h0
    simp [sizeSum]
  · rw [if_neg h0]
    have h1 : index - 1 < vs.length := by omega
    obtain ⟨hr, _⟩ := hp.2.2.2 (index - 1) h1
    rw [hr]
    show sizeSum (vs.take (index - 1)) + (vs.get ⟨index - 1, h1⟩).metaOf.size
      = sizeSum (vs.take index)
    have h2 := sizeSum_take_succ vs (index - 1) h1
    rw [show index - 1 + 1 = index by omega] at h2
    have h3 : (vs.get ⟨index - 1, h1⟩).metaOf.size = vs[index - 1].size := rfl
    omega

/-- In a packed container the free-window end of a non-final index is the
recorded start of the following payload, the end of the packed prefix through
it. -/
theorem packed_nextElementStart (s : Chonk) (vs : List Elem) (hp : Packed s vs)
    (index : Nat) (h : index + 1 < vs.length) :
    s.nextElementStart index = sizeSum (vs.take (index + 1)) := by
  unfold Chonk.nextElementStart
  have hlen := hp.1
  rw [if_neg (by omega : ¬ index = s.len - 1)]
  obtain ⟨hr, _⟩ := hp.2.2.2 (index + 1) h
  rw [hr]

/-- A replace never changes the buffer pointer, capacity, length or payload
watermark, successful or not. -/
theorem tryReplace_scalars (s : Chonk) (v : Elem) (index : Nat) :
    (s.tryReplace v index).2.base = s.base ∧ (s.tryReplace v index).2.cap = s.cap ∧
    (s.tryReplace v index).2.len = s.len ∧
    (s.tryReplace v index).2.elem_size = s.elem_size := by
  rw [tryReplace_eq]
  split
  · exact ⟨rfl, rfl, rfl, rfl⟩
  · split
    · exact ⟨rfl, rfl, rfl, rfl⟩
    · exact ⟨rfl, rfl, rfl, rfl⟩

/-- A replace never changes any record other than the one at its index. -/
theorem tryReplace_recs_frame (s : Chonk) (v : Elem) (index j : Nat)
    (h : j ≠ index) : (s.tryReplace v index).2.recs j = s.recs j := by
  rw [tryReplace_eq]
  split
  · rfl
  · split
    · rfl
    · show (if j = index then _ else s.recs j) = s.recs j
      rw [if_neg h]

/-- On a packed container a replace leaves every other payload byte-for-byte
unchanged: its writes stay inside the free window of its own index, which is
disjoint from every other packed payload. -/
theorem tryReplace_payload_frame (s : Chonk) (vs : List Elem) (v : Elem)
    (index j : Nat) (hp : Packed s vs) (hj : j < s.len) (hne : j ≠ index) :
    (s.tryReplace v index).2.boxElemUnchecked j = s.boxElemUnchecked j := by
  rw [tryReplace_eq]
  by_cases h1 : index ≥ s.len
  · rw [if_pos h1]
  · rw [if_neg h1]
    set newOff := s.freeSpaceStart index +
      alignOffset (s.base + s.freeSpaceStart index) v.align with hnewOff
    by_cases h2 : s.nextElementStart index - newOff < v.size
    · rw [if_pos h2]
    · rw [if_neg h2]
      have hlen := hp.1
      have hjv : j < vs.length := by omega
      have hiv : index < vs.length := by omega
      obtain ⟨hrj, _⟩ := hp.2.2.2 j hjv
      unfold Chonk.boxElemUnchecked
      dsimp only
      rw [if_neg hne, hrj]
      show (⟨readBytes (writeBytes s.mem newOff v.bytes) (sizeSum (vs.take j))
          vs[j].bytes.length, vs[j].align⟩ : Elem)
        = ⟨readBytes s.mem (sizeSum (vs.take j)) vs[j].bytes.length, vs[j].align⟩
      congr 1
      apply readBytes_congr
      intro k hk
      cases hvb : v.bytes with
      | nil => rfl
      | cons hd tl =>
        have hvl : (hd :: tl).length = v.bytes.length := by rw [hvb]
        apply writeBytes_outside
        have hfs := packed_freeSpaceStart s vs hp index hiv
        rcases Nat.lt_or_ge j index with hji | hji
        · left
          have e1 := sizeSum_take_succ vs j hjv
          have e2 := sizeSum_take_mono vs (j + 1) index (by omega)
          have e3 : vs[j].size = vs[j].bytes.length := rfl
          omega
        · right
          have hji2 : index + 1 ≤ j := by omega
          have e4 := packed_nextElementStart s vs hp index (by omega)
          have e5 := sizeSum_take_mono vs (index + 1) j hji2
          have hpos : 0 < v.bytes.length := by
            rw [hvb]
            simp
          have e7 : v.size = v.bytes.length := rfl
          have e6 : newOff + v.bytes.length ≤ s.nextElementStart index := by omega
          omega

/-- A successful replace stores the new payload so that reading the index back
yields exactly it. -/
theorem tryReplace_success_get (s : Chonk) (v : Elem) (index : Nat)
    (h1 : index < s.len)
    (h2 : ¬ (s.nextElementStart index -
      (s.freeSpaceStart index + alignOffset (s.base + s.freeSpaceStart index) v.align)
      < v.size)) :
    (s.tryReplace v index).1 = Sum.inl (s.boxElemUnchecked index) ∧
    (s.tryReplace v index).2.get index = some v := by
  rw [tryReplace_eq, if_neg (by omega : ¬ index ≥ s.len), if_neg h2]
  refine ⟨rfl, ?_⟩
  unfold Chonk.get
  rw [if_pos h1]
  unfold Chonk.boxElemUnchecked
  dsimp only
  rw [if_pos rfl]
  show some (⟨readBytes (writeBytes s.mem _ v.bytes) _ v.bytes.length, v.align⟩ : Elem)
    = some v
  rw [readBytes_writeBytes]

/-! Concrete fixtures, drawn from the crate's own usage (Vechonk of dyn Any
and of str on a 64-bit target, record size 16, buffer alignment 8). -/

/-- A boxed one-byte alignment-1 payload (a u8 stored as dyn Any). -/
def exByte : Elem := ⟨[170], 1⟩

/-- A boxed four-byte alignment-4 payload (a u32 stored as dyn Any). -/
def exWord : Elem := ⟨[1, 2, 3, 4], 4⟩

/-- A boxed four-byte alignment-1 payload. -/
def exFlat : Elem := ⟨[9, 9, 9, 9], 1⟩

/-- A 96-byte container (8-aligned base address 8) holding `exByte` then
`exWord`: the second payload was placed at aligned offset 4 after 3 bytes of
padding, while the watermark `elem_size` advanced only to 5. -/
def exPadded : Chonk := ((Chonk.withCapacity 96 8).push exByte 0).push exWord 0

/-- The two str-like payloads of the crate's own tests, pushed onto the empty
container (the first push regrows from capacity 0). -/
def exStrs : List (Elem × Nat) :=
  [(⟨[104, 101, 108, 108, 111], 1⟩, 8), (⟨[117, 119, 117], 1⟩, 16)]

/-- A packed two-element container built from `exStrs`. -/
def exPackedTwo : Chonk := Chonk.newChonk.pushAll exStrs

/-- A 96-byte container holding one five-byte alignment-1 payload. -/
def exHello : Chonk := (Chonk.withCapacity 96 8).push ⟨[104, 101, 108, 108, 111], 1⟩ 0

/-- A ten-byte alignment-1 payload, larger than `exHello`'s watermark. -/
def exTen : Elem := ⟨[1, 2, 3, 4, 5, 6, 7, 8, 9, 10], 1⟩

/-- A container in which the padding bug shingled the payloads: a u8-like
byte, an eight-byte alignment-8 payload at offsets 8..16, then two alignment-1
payloads written at offsets 9..11 and 11..12, inside the second payload. -/
def exShingled : Chonk :=
  ((((Chonk.withCapacity 96 8).push ⟨[170], 1⟩ 0).push
    ⟨[1, 2, 3, 4, 5, 6, 7, 8], 8⟩ 0).push ⟨[21, 22], 1⟩ 0).push ⟨[31], 1⟩ 0

/-- The empty container after pushing one zero-sized payload. -/
def exZst : Chonk := Chonk.newChonk.push ⟨[], 1⟩ 8

/-- Shared derivation for the content claims: any sequence of alignment-1
(padding-free) pushes onto the empty container gives length equal to the
number of pushes and reads back each pushed payload at its index. -/
theorem pushAll_from_empty_reads_back (ps : List (Elem × Nat))
    (ha : ∀ p ∈ ps, (Prod.fst p).align = 1) :
    (Chonk.newChonk.pushAll ps).len = ps.length ∧
    ∀ i, (h : i < ps.length) →
      (Chonk.newChonk.pushAll ps).get i = some (ps.get ⟨i, h⟩).fst := by
  have hp := packed_pushAll ps Chonk.newChonk [] packed_newChonk ha
  rw [List.nil_append] at hp
  refine ⟨by rw [hp.1]; simp, ?_⟩
  intro i h
  have hi : i < (ps.map Prod.fst).length := by simpa using h
  rw [packed_get _ _ hp i hi]
  congr 1
  rw [List.getElem_map, List.get_eq_getElem]

/-! The claims. -/

/-- C1 (amended): starting from the empty container, for every sequence of
pushes of payloads that need no alignment padding (alignment requirement 1,
as for str or byte-slice payloads), the length equals the number of pushes and
every index reads back a value equal to the payload pushed at it, in insertion
order.  The claim as literally stated, over payloads of arbitrary alignment,
is refuted by `c1_counterexample`. -/
theorem c1_push_length_get (ps : List (Elem × Nat))
    (ha : ∀ p ∈ ps, (Prod.fst p).align = 1) :
    (Chonk.newChonk.pushAll ps).len = ps.length ∧
    ∀ i, (h : i < ps.length) →
      (Chonk.newChonk.pushAll ps).get i = some (ps.get ⟨i, h⟩).fst :=
  pushAll_from_empty_reads_back ps ha

/-- Witness for C1: the crate's own two-payload scenario, evaluated. -/
theorem c1_push_length_get_witness :
    (∀ p ∈ exStrs, (Prod.fst p).align = 1) ∧
    ((Chonk.newChonk.pushAll exStrs).len = exStrs.length ∧
     ∀ i, (h : i < exStrs.length) →
       (Chonk.newChonk.pushAll exStrs).get i = some (exStrs.get ⟨i, h⟩).fst) :=
  ⟨by decide, c1_push_length_get exStrs (by decide)⟩

/-- Counterexample to C1 as stated: pushing a one-byte alignment-1 payload,
then a four-byte alignment-4 payload (3 bytes of padding), then a four-byte
alignment-1 payload makes the third push start at the un-padded watermark 5
and overwrite bytes 5..8 of the second payload, so index 1 reads back a
corrupted value.  The length is still correct. -/
theorem c1_counterexample :
    ((Chonk.withCapacity 96 8).pushAll [(exByte, 0), (exWord, 0), (exFlat, 0)]).len = 3 ∧
    ((Chonk.withCapacity 96 8).pushAll [(exByte, 0), (exWord, 0), (exFlat, 0)]).get 1
      = some ⟨[1, 9, 9, 9], 4⟩ ∧
    ¬ (((Chonk.withCapacity 96 8).pushAll [(exByte, 0), (exWord, 0), (exFlat, 0)]).get 1
      = some exWord) := by decide

/-- C2: the code contradicts the claim.  In `exPadded` the second payload's
aligned start is 4 and its size is 4, so the claim requires the watermark to
be 8, but the source advances `elem_size` by the payload size only
(raw.rs line 118), leaving 5: the 3 bytes of alignment padding are not
accounted, and a later payload can be placed inside the live payload. -/
theorem c2_used_drops_padding :
    (exPadded.recs 1).offset = 4 ∧ Elem.size exWord = 4 ∧
    exPadded.elem_size = 5 ∧
    exPadded.elem_size ≠ (exPadded.recs 1).offset + Elem.size exWord := by decide

/-- C3: every replace call has exactly one of the two outcomes: (a) it
returns the value stored at the index before the call, the index afterwards
reads back the new value, and the length is unchanged; or (b) it returns the
new value itself and the state is completely unchanged.  Outcome (b) is
guaranteed when the index is out of bounds and when the new value does not
fit the free window the operation computes (the third trigger, alignment
failure, cannot occur in the model: an aligned offset exists for every
positive alignment, so that guarantee holds vacuously). -/
theorem c3_tryReplace_dichotomy (s : Chonk) (v : Elem) (index : Nat) :
    Xor'
      ((s.tryReplace v index).1 = Sum.inl (s.boxElemUnchecked index) ∧
       s.get index = some (s.boxElemUnchecked index) ∧
       (s.tryReplace v index).2.get index = some v ∧
       (s.tryReplace v index).2.len = s.len)
      ((s.tryReplace v index).1 = Sum.inr v ∧ (s.tryReplace v index).2 = s) ∧
    (index ≥ s.len →
      (s.tryReplace v index).1 = Sum.inr v ∧ (s.tryReplace v index).2 = s) ∧
    (index < s.len →
      s.nextElementStart index - (s.freeSpaceStart index +
        alignOffset (s.base + s.freeSpaceStart index) v.align) < v.size →
      (s.tryReplace v index).1 = Sum.inr v ∧ (s.tryReplace v index).2 = s) := by
  by_cases h1 : index ≥ s.len
  · have he : s.tryReplace v index = (Sum.inr v, s) := by
      rw [tryReplace_eq, if_pos h1]
    refine ⟨Or.inr ⟨⟨by rw [he], by rw [he]⟩, ?_⟩,
      fun _ => ⟨by rw [he], by rw [he]⟩,
      fun hlt _ => absurd hlt (by omega)⟩
    rintro ⟨hA, _⟩
    rw [he] at hA
    simp at hA
  · by_cases h2 : s.nextElementStart index - (s.freeSpaceStart index +
        alignOffset (s.base + s.freeSpaceStart index) v.align) < v.size
    · have he : s.tryReplace v index = (Sum.inr v, s) := by
        rw [tryReplace_eq, if_neg h1, if_pos h2]
      refine ⟨Or.inr ⟨⟨by rw [he], by rw [he]⟩, ?_⟩,
        fun hx => absurd hx h1,
        fun _ _ => ⟨by rw [he], by rw [he]⟩⟩
      rintro ⟨hA, _⟩
      rw [he] at hA
      simp at hA
    · obtain ⟨hfst, hget⟩ := tryReplace_success_get s v index (by omega) h2
      have hgetold : s.get index = some (s.boxElemUnchecked index) := by
        unfold Chonk.get
        rw [if_pos (by omega)]
      refine ⟨Or.inl ⟨⟨hfst, hgetold, hget, (tryReplace_scalars s v index).2.2.1⟩, ?_⟩,
        fun hx => absurd hx h1,
        fun _ hx => absurd hx h2⟩
      rintro ⟨hB, _⟩
      rw [hfst] at hB
      simp at hB

/-- Witness for C3 at a concrete successful replace. -/
theorem c3_tryReplace_dichotomy_witness :
    Xor'
      ((exHello.tryReplace exTen 0).1 = Sum.inl (exHello.boxElemUnchecked 0) ∧
       exHello.get 0 = some (exHello.boxElemUnchecked 0) ∧
       (exHello.tryReplace exTen 0).2.get 0 = some exTen ∧
       (exHello.tryReplace exTen 0).2.len = exHello.len)
      ((exHello.tryReplace exTen 0).1 = Sum.inr exTen ∧
       (exHello.tryReplace exTen 0).2 = exHello) ∧
    (0 ≥ exHello.len →
      (exHello.tryReplace exTen 0).1 = Sum.inr exTen ∧
      (exHello.tryReplace exTen 0).2 = exHello) ∧
    (0 < exHello.len →
      exHello.nextElementStart 0 - (exHello.freeSpaceStart 0 +
        alignOffset (exHello.base + exHello.freeSpaceStart 0) exTen.align) < exTen.size →
      (exHello.tryReplace exTen 0).1 = Sum.inr exTen ∧
      (exHello.tryReplace exTen 0).2 = exHello) :=
  c3_tryReplace_dichotomy exHello exTen 0

/-- C4 (amended): for a valid index the acceptance decision of the replace is
exactly the fit of the aligned new payload against the free window from
`freeSpaceStart` (0 for index 0, otherwise the end of payload index-1) to
`nextElementStart`, and for the last element the window end is
`cap - count * recordSize` — the start of the index region — not the payload
watermark `used` stated by the claim (refuted by `c4_counterexample`). -/
theorem c4_replace_window (s : Chonk) (v : Elem) (index : Nat) (h : index < s.len) :
    ((s.tryReplace v index).1 = Sum.inr v ↔
      s.nextElementStart index - (s.freeSpaceStart index +
        alignOffset (s.base + s.freeSpaceStart index) v.align) < v.size) ∧
    (index = s.len - 1 → s.nextElementStart index = s.cap - s.len * dataSize) ∧
    (index ≠ s.len - 1 → s.nextElementStart index = (s.recs (index + 1)).offset) ∧
    (index = 0 → s.freeSpaceStart index = 0) ∧
    (index ≠ 0 → s.freeSpaceStart index =
      (s.recs (index - 1)).offset + (s.recs (index - 1)).meta.size) := by
  refine ⟨?_, ?_, ?_, ?_, ?_⟩
  · by_cases h2 : s.nextElementStart index - (s.freeSpaceStart index +
        alignOffset (s.base + s.freeSpaceStart index) v.align) < v.size
    · rw [tryReplace_eq, if_neg (by omega : ¬ index ≥ s.len), if_pos h2]
      simp [h2]
    · rw [tryReplace_eq, if_neg (by omega : ¬ index ≥ s.len), if_neg h2]
      simp [h2]
  · intro hl
    unfold Chonk.nextElementStart Chonk.dataSectionSize
    rw [if_pos hl]
  · intro hl
    unfold Chonk.nextElementStart
    rw [if_neg hl]
  · intro h0
    unfold Chonk.freeSpaceStart
    rw [if_pos h0]
  · intro h0
    unfold Chonk.freeSpaceStart
    rw [if_neg h0]

/-- Witness for C4 at a concrete accepted replace of a last element. -/
theorem c4_replace_window_witness :
    0 < exHello.len ∧
    ((((exHello.tryReplace exTen 0).1 = Sum.inr exTen ↔
      exHello.nextElementStart 0 - (exHello.freeSpaceStart 0 +
        alignOffset (exHello.base + exHello.freeSpaceStart 0) exTen.align)
        < exTen.size) ∧
    (0 = exHello.len - 1 →
      exHello.nextElementStart 0 = exHello.cap - exHello.len * dataSize) ∧
    (0 ≠ exHello.len - 1 →
      exHello.nextElementStart 0 = (exHello.recs 1).offset) ∧
    (0 = 0 → exHello.freeSpaceStart 0 = 0) ∧
    (0 ≠ 0 → exHello.freeSpaceStart 0 =
      (exHello.recs 0).offset + (exHello.recs 0).meta.size))) :=
  ⟨by decide, c4_replace_window exHello exTen 0 (by decide)⟩

/-- Counterexample to C4 as stated: in the one-element container `exHello`
the watermark is 5 and the claimed window for replacing the last element ends
there, so the ten-byte payload does not fit it; yet the operation accepts and
performs the replace, because its actual window ends at
`cap - count * recordSize = 80`. -/
theorem c4_counterexample :
    (exHello.tryReplace exTen 0).1 = Sum.inl ⟨[104, 101, 108, 108, 111], 1⟩ ∧
    exHello.elem_size = 5 ∧ Elem.size exTen = 10 ∧
    exHello.nextElementStart 0 = 80 ∧
    exHello.elem_size - (exHello.freeSpaceStart 0 +
      alignOffset (exHello.base + exHello.freeSpaceStart 0) exTen.align)
      < Elem.size exTen := by decide

/-- C5 (amended): growth is transparent to logical content for padding-free
payloads: every sequence of alignment-1 pushes from the empty unallocated
container that triggers at least one reallocation still reads back, in index
order, exactly the pushed payloads — the regrow copies the live prefix and
all records correctly.  For arbitrary alignments the literal claim fails for
the same reason as C1 (the watermark bug in push, not the regrow copy); see
`c5_counterexample`, whose trace regrows twice. -/
theorem c5_growth_transparent (ps : List (Elem × Nat))
    (ha : ∀ p ∈ ps, (Prod.fst p).align = 1)
    (_hg : Chonk.newChonk.pushAllGrows ps) :
    (Chonk.newChonk.pushAll ps).len = ps.length ∧
    ∀ i, (h : i < ps.length) →
      (Chonk.newChonk.pushAll ps).get i = some (ps.get ⟨i, h⟩).fst :=
  pushAll_from_empty_reads_back ps ha

/-- Witness for C5: the two-payload sequence regrows on its first push. -/
theorem c5_growth_transparent_witness :
    (∀ p ∈ exStrs, (Prod.fst p).align = 1) ∧
    Chonk.newChonk.pushAllGrows exStrs ∧
    ((Chonk.newChonk.pushAll exStrs).len = exStrs.length ∧
     ∀ i, (h : i < exStrs.length) →
       (Chonk.newChonk.pushAll exStrs).get i = some (exStrs.get ⟨i, h⟩).fst) :=
  ⟨by decide, by decide, c5_growth_transparent exStrs (by decide) (by decide)⟩

/-- Counterexample to C5 as stated: the mixed-alignment sequence of
`c1_counterexample` pushed from the empty container regrows on the first two
pushes (to capacities 32 and 104) and still ends with index 1 corrupted. -/
theorem c5_counterexample :
    Chonk.newChonk.pushAllGrows [(exByte, 8), (exWord, 16), (exFlat, 24)] ∧
    (Chonk.newChonk.pushAll [(exByte, 8), (exWord, 16), (exFlat, 24)]).get 1
      = some ⟨[1, 9, 9, 9], 4⟩ ∧
    ¬ ((Chonk.newChonk.pushAll [(exByte, 8), (exWord, 16), (exFlat, 24)]).get 1
      = some exWord) := by decide

/-- C6: data-model invariant 2 is violated by the code.  After the two pushes
of `exPadded` the payload at index 1 occupies bytes 4..8 (recorded offset 4,
size 4) but the watermark `used` is 5, so the payload does not lie within
the live prefix `[0, used)` — a direct consequence of the watermark slip of
C2.  (Its alignment, offset 4 for requirement 4, is respected here.) -/
theorem c6_invariant2_violated :
    1 < exPadded.len ∧
    (exPadded.recs 1).offset + (exPadded.recs 1).meta.size = 8 ∧
    exPadded.elem_size = 5 ∧
    ¬ ((exPadded.recs 1).offset + (exPadded.recs 1).meta.size
        ≤ exPadded.elem_size) := by decide

/-- C7 (amended): a push followed immediately by a pop always returns a value
equal to the pushed one and restores the length to its prior value; the
elements at indexes below the old length are additionally unchanged provided
the container is packed and the pushed payload needs no alignment padding.
Without that proviso the push itself can overwrite interior payload bytes
before the pop, refuting the literal claim (see `c7_counterexample`). -/
theorem c7_push_pop_roundtrip (s : Chonk) (v : Elem) (b : Nat) :
    ((s.push v b).pop).map Prod.fst = some v ∧
    ((s.push v b).pop).map (fun p => p.2.len) = some s.len ∧
    ∀ vs, Packed s vs → v.align = 1 → ∀ i, i < s.len →
      ((s.push v b).pop).map (fun p => p.2.get i) = some (s.get i) := by
  refine ⟨?_, ?_, ?_⟩
  · rw [push_pop_eq]
    show some ((s.push v b).boxElemUnchecked s.len) = some v
    rw [push_boxElem_last]
  · rw [push_pop_eq]
    rfl
  · intro vs hp ha i hi
    rw [push_pop_eq]
    show some (({ s.push v b with len := s.len } : Chonk).get i) = some (s.get i)
    have h3 : ({ s.push v b with len := s.len } : Chonk).get i = (s.push v b).get i := by
      unfold Chonk.get
      rw [if_pos (show i < s.len from hi),
        if_pos (show i < (s.push v b).len by rw [push_len]; omega)]
      rfl
    rw [h3, push_get_below s vs v b hp ha i hi]

/-- Witness for C7 at the packed two-element container. -/
theorem c7_push_pop_roundtrip_witness :
    ((exPackedTwo.push exFlat 0).pop).map Prod.fst = some exFlat ∧
    ((exPackedTwo.push exFlat 0).pop).map (fun p => p.2.len) = some exPackedTwo.len ∧
    ∀ vs, Packed exPackedTwo vs → exFlat.align = 1 → ∀ i, i < exPackedTwo.len →
      ((exPackedTwo.push exFlat 0).pop).map (fun p => p.2.get i)
        = some (exPackedTwo.get i) :=
  c7_push_pop_roundtrip exPackedTwo exFlat 0

/-- Counterexample to C7 as stated: on `exPadded` (where payload 1 lives at
bytes 4..8 but the watermark is 5) pushing the alignment-1 payload and popping
it back returns the pushed value and restores the length, but the interior
element at index 1 has been overwritten by the push. -/
theorem c7_counterexample :
    ((exPadded.push exFlat 0).pop).map Prod.fst = some exFlat ∧
    ((exPadded.push exFlat 0).pop).map (fun p => p.2.len) = some exPadded.len ∧
    exPadded.get 1 = some exWord ∧
    ((exPadded.push exFlat 0).pop).map (fun p => p.2.get 1)
      = some (some ⟨[1, 9, 9, 9], 4⟩) ∧
    ¬ (((exPadded.push exFlat 0).pop).map (fun p => p.2.get 1)
      = some (exPadded.get 1)) := by decide

/-- C8 (amended): a replace never reallocates — the buffer pointer, capacity,
length and payload watermark are unchanged whether it succeeds or not — and
never changes any index record other than the one at its index; on a packed
container every payload other than the one at its index is byte-for-byte
unchanged.  On the shingled layouts produced by the padding bug the written
window can overlap another payload's bytes, refuting the literal claim (see
`c8_counterexample`). -/
theorem c8_replace_frame (s : Chonk) (v : Elem) (index : Nat) :
    ((s.tryReplace v index).2.base = s.base ∧
     (s.tryReplace v index).2.cap = s.cap ∧
     (s.tryReplace v index).2.len = s.len ∧
     (s.tryReplace v index).2.elem_size = s.elem_size) ∧
    (∀ j, j ≠ index → (s.tryReplace v index).2.recs j = s.recs j) ∧
    ∀ vs, Packed s vs → ∀ j, j < s.len → j ≠ index →
      (s.tryReplace v index).2.boxElemUnchecked j = s.boxElemUnchecked j :=
  ⟨tryReplace_scalars s v index,
   fun j hj => tryReplace_recs_frame s v index j hj,
   fun vs hp j hj hne => tryReplace_payload_frame s vs v index j hp hj hne⟩

/-- Witness for C8 at the packed two-element container. -/
theorem c8_replace_frame_witness :
    ((exPackedTwo.tryReplace exFlat 0).2.base = exPackedTwo.base ∧
     (exPackedTwo.tryReplace exFlat 0).2.cap = exPackedTwo.cap ∧
     (exPackedTwo.tryReplace exFlat 0).2.len = exPackedTwo.len ∧
     (exPackedTwo.tryReplace exFlat 0).2.elem_size = exPackedTwo.elem_size) ∧
    (∀ j, j ≠ 0 → (exPackedTwo.tryReplace exFlat 0).2.recs j = exPackedTwo.recs j) ∧
    ∀ vs, Packed exPackedTwo vs → ∀ j, j < exPackedTwo.len → j ≠ 0 →
      (exPackedTwo.tryReplace exFlat 0).2.boxElemUnchecked j
        = exPackedTwo.boxElemUnchecked j :=
  c8_replace_frame exPackedTwo exFlat 0

/-- Counterexample to C8 as stated: in `exShingled` the free window of index 3
is bytes 11..32, but payload 1 occupies bytes 8..16; the replace of index 3
by a three-byte payload succeeds, returns the old value, and changes the byte
content of the payload at index 1. -/
theorem c8_counterexample :
    (exShingled.tryReplace ⟨[91, 92, 93], 1⟩ 3).1 = Sum.inl ⟨[31], 1⟩ ∧
    exShingled.boxElemUnchecked 1 = ⟨[1, 21, 22, 31, 5, 6, 7, 8], 8⟩ ∧
    (exShingled.tryReplace ⟨[91, 92, 93], 1⟩ 3).2.boxElemUnchecked 1
      = ⟨[1, 21, 22, 91, 92, 93, 7, 8], 8⟩ ∧
    ¬ ((exShingled.tryReplace ⟨[91, 92, 93], 1⟩ 3).2.boxElemUnchecked 1
      = exShingled.boxElemUnchecked 1) := by decide

/-- C9: the in-bounds property is not re-established after a regrow, and it
can fail.  Pushing a one-byte payload of alignment 2048 onto the empty
container decides growth with the alignment offset of the dangling pointer,
regrows to capacity 32, and then recomputes the alignment offset against the
new base: if the allocator returns a base congruent to 8 modulo 2048 (any
8-aligned address is legal for the requested layout) the destination offset
becomes 2040 and payload plus record do not fit the new capacity, while a
base that is a multiple of 2048 happens to fit.  The source acknowledges the
problem (raw.rs line 331). -/
theorem c9_push_bounds_violated :
    Chonk.newChonk.pushGrows ⟨[5], 2048⟩ ∧
    ¬ Chonk.newChonk.pushFits ⟨[5], 2048⟩ 8 ∧
    Chonk.newChonk.pushFits ⟨[5], 2048⟩ 2048 := by decide

/-- C10: reconstructing a stored zero-sized payload requests a zero-byte
allocation: after pushing an empty payload the record's size is 0, so
`box_elem_unchecked` hands the raw allocator a zero-size layout, which its
contract forbids — the source marks this with a TODO (raw.rs line 245) even
though the crate's tests exercise exactly this path.  In the byte model the
pop still returns the zero-sized payload. -/
theorem c10_zero_size_alloc :
    exZst.boxAllocSize 0 = 0 ∧
    (exZst.pop).map Prod.fst = some ⟨[], 1⟩ ∧
    Elem.size ⟨[], 1⟩ = 0 := by decide

end Vechonk
